import Mathlib

/-!
Verification of the trajectory-processing scripts.

Shallow embedding of the pure data-processing kernels of the repository:

* `src/analysis/analyze_trajectories.py`: `get_direction_info`,
  `try_flattening` (backtrack classification and trajectory flattening);
* `src/trajectory_collection/simplified_process_react.py`:
  `_check_error_messages`, `_filter_messages`, `check_context_size`,
  `_filter_train_data` (message filtering, token-budget trimming and
  field sanitization);
* `src/analysis/analyze_o4_mini_trajectories.py`: the per-task success
  decision and the success-rate reduction of `analyze_trajectories`.

Python strings are modelled as Lean `String` (or `List Char` where proofs
walk the text character by character); Python `int` arithmetic that can go
negative (the remaining token budget) is modelled by `Int`.
-/

namespace MyExact

/-! ### Python string primitives -/

/-- Python's substring test `pat in s`, on character lists: `pat` occurs
contiguously in `s`. -/
def containsSub (pat : List Char) : List Char → Bool
  | [] => pat == []
  | c :: rest => if (c :: rest).take pat.length == pat then true else containsSub pat rest

/-- Python's `pat in s` on strings. -/
def pyContains (s pat : String) : Bool :=
  containsSub pat.toList s.toList

/-- Python's `str.lower()` (the texts handled by the scripts are ASCII). -/
def pyLower (s : String) : String :=
  String.mk (s.toList.map Char.toLower)

/-- The characters Python's `str.strip()` removes (ASCII whitespace). -/
def isPySpace (c : Char) : Bool :=
  c == ' ' || c == '\t' || c == '\n' || c == '\r' || c == '\x0b' || c == '\x0c'

/-! ### Trajectory data model (`analyze_trajectories.py`)

A trajectory is a list whose items are either states (plain dicts in the
source, whose payload none of the analyzed functions inspects, so it is an
opaque tag here) or actions (objects exposing `raw_prediction` and
optionally a `_direction` attribute). -/

/-- An action record: the optional explicit `_direction` attribute and the
free-text `raw_prediction` rationale. -/
structure Action where
  _direction : Option String
  raw_prediction : String
deriving DecidableEq, Repr

/-- One step of a trajectory: a state (a dict in the source; its payload is
irrelevant to classification and flattening) or an action. -/
inductive TrajItem
  | state (payload : Nat)
  | action (a : Action)
deriving DecidableEq, Repr

/-- `BACKTRACK_KWD` of `analyze_trajectories.py`. -/
def BACKTRACK_KWD : String := "We should take a step back"

/-- `GO_BACK_KWD` of `analyze_trajectories.py`. -/
def GO_BACK_KWD : String := "go_back"

/-- `get_direction_info` of `analyze_trajectories.py`: the explicit
`_direction` attribute when present; otherwise `"backtrack"` when the
rationale contains `BACKTRACK_KWD` (as written) or its lowercasing contains
`GO_BACK_KWD`; otherwise `"forward"`. -/
def get_direction_info (item : Action) : String :=
  match item._direction with
  | some d => d
  | none =>
    if pyContains item.raw_prediction BACKTRACK_KWD
        || pyContains (pyLower item.raw_prediction) GO_BACK_KWD then
      "backtrack"
    else
      "forward"

/-- The loop body of `try_flattening`: actions classified `"backtrack"` are
skipped, everything else is kept. -/
def flatten_loop : List TrajItem → List TrajItem
  | [] => []
  | TrajItem.action a :: rest =>
    if get_direction_info a != "backtrack" then TrajItem.action a :: flatten_loop rest
    else flatten_loop rest
  | TrajItem.state s :: rest => TrajItem.state s :: flatten_loop rest

/-- The validity probe at the end of `try_flattening`: some position holds a
state immediately followed by an action. -/
def hasStateActionPair : List TrajItem → Bool
  | TrajItem.state _ :: TrajItem.action _ :: _ => true
  | _ :: rest => hasStateActionPair rest
  | [] => false

/-- `try_flattening` of `analyze_trajectories.py`: the flattened trajectory
together with the state/action-pair validity flag. -/
def try_flattening (trajectory : List TrajItem) : List TrajItem × Bool :=
  let flattened := flatten_loop trajectory
  (flattened, hasStateActionPair flattened)

/-- Keep-predicate realized by the flattening loop. -/
def keepItem : TrajItem → Bool
  | TrajItem.state _ => true
  | TrajItem.action a => get_direction_info a != "backtrack"

/-- A trajectory item that is a state. -/
def isStateItem : TrajItem → Bool
  | TrajItem.state _ => true
  | TrajItem.action _ => false

/-- A trajectory item that is an action not classified `"backtrack"`. -/
def isForwardAction : TrajItem → Bool
  | TrajItem.state _ => false
  | TrajItem.action a => get_direction_info a != "backtrack"

theorem flatten_loop_eq_filter (T : List TrajItem) :
    flatten_loop T = T.filter keepItem := by
  induction T with
  | nil => rfl
  | cons item rest ih =>
    cases item with
    | state s => simp [flatten_loop, List.filter, keepItem, ih]
    | action a =>
      by_cases h : get_direction_info a != "backtrack" <;>
        simp [flatten_loop, List.filter, keepItem, h, ih]

theorem keepItem_of_isStateItem {i : TrajItem} (h : isStateItem i = true) :
    keepItem i = true := by
  cases i with
  | state s => rfl
  | action a => simp [isStateItem] at h

theorem keepItem_of_isForwardAction {i : TrajItem} (h : isForwardAction i = true) :
    keepItem i = true := by
  cases i with
  | state s => rfl
  | action a => simpa [isForwardAction, keepItem] using h

theorem filter_keepItem_comm (p : TrajItem → Bool)
    (hp : ∀ i, p i = true → keepItem i = true) (T : List TrajItem) :
    (T.filter keepItem).filter p = T.filter p := by
  induction T with
  | nil => rfl
  | cons item rest ih =>
    by_cases hk : keepItem item = true
    · by_cases hpi : p item = true <;> simp [List.filter_cons, hk, hpi, ih]
    · have hpi : p item = false := by
        cases hpc : p item with
        | false => rfl
        | true => exact absurd (hp item hpc) hk
      simp [List.filter_cons, hk, hpi, ih]

/-- C1: flattening returns a sequence with no backtrack-classified action,
which is an order-preserving subsequence of the input retaining every state
and every forward-classified action (in their original relative order, with
multiplicity), and whose length is at most the input's. The input itself is
untouched: `try_flattening` is a pure function of it. -/
theorem try_flattening_flattens (T : List TrajItem) :
    (∀ a : Action, TrajItem.action a ∈ (try_flattening T).1 →
      get_direction_info a ≠ "backtrack")
    ∧ (try_flattening T).1.Sublist T
    ∧ (try_flattening T).1.filter isStateItem = T.filter isStateItem
    ∧ (try_flattening T).1.filter isForwardAction = T.filter isForwardAction
    ∧ (try_flattening T).1.length ≤ T.length := by
  have hfl : (try_flattening T).1 = T.filter keepItem := by
    simpa [try_flattening] using flatten_loop_eq_filter T
  refine ⟨?_, ?_, ?_, ?_, ?_⟩
  · intro a ha
    rw [hfl] at ha
    have := List.of_mem_filter ha
    simpa [keepItem, bne_iff_ne] using this
  · rw [hfl]; exact List.filter_sublist T
  · rw [hfl]; exact filter_keepItem_comm _ (fun i => keepItem_of_isStateItem) T
  · rw [hfl]; exact filter_keepItem_comm _ (fun i => keepItem_of_isForwardAction) T
  · rw [hfl]; exact List.length_filter_le keepItem T

/-- Witness for C1 at a concrete trajectory: the kept forward action of
`trajC5` is indeed not classified backtrack. -/
theorem try_flattening_flattens_witness :
    get_direction_info (Action.mk (some "forward") "click [42]") ≠ "backtrack" :=
  (try_flattening_flattens
      [TrajItem.action (Action.mk (some "forward") "click [42]")]).1
    (Action.mk (some "forward") "click [42]") (by decide)

/-- C4 (amended): direction classification uses the explicit `_direction`
attribute when present; otherwise it is `"backtrack"` exactly when the
rationale contains the backtrack phrase as a case-sensitive substring or the
go-back token as a case-insensitive substring, and `"forward"` otherwise. -/
theorem get_direction_info_policy (a : Action) :
    (∀ d, a._direction = some d → get_direction_info a = d)
    ∧ (a._direction = none →
        ((get_direction_info a = "backtrack")
          ↔ (pyContains a.raw_prediction BACKTRACK_KWD = true
              ∨ pyContains (pyLower a.raw_prediction) GO_BACK_KWD = true))
        ∧ (get_direction_info a = "backtrack" ∨ get_direction_info a = "forward")) := by
  constructor
  · intro d hd
    simp [get_direction_info, hd]
  · intro hnone
    constructor
    · by_cases hb : pyContains a.raw_prediction BACKTRACK_KWD = true
          ∨ pyContains (pyLower a.raw_prediction) GO_BACK_KWD = true
      · simp [get_direction_info, hnone]
        rcases hb with hb | hb <;> simp [hb]
      · push_neg at hb
        simp [get_direction_info, hnone, hb.1, hb.2]
    · by_cases hb : (pyContains a.raw_prediction BACKTRACK_KWD
          || pyContains (pyLower a.raw_prediction) GO_BACK_KWD) = true <;>
        simp [get_direction_info, hnone, hb]

/-- An action whose rationale contains the backtrack phrase only in a
different letter case (and no go-back token). -/
def mixedCaseAct : Action :=
  Action.mk none "We Should Take A Step Back"

/-- C4 counterexample: the rationale of `mixedCaseAct` contains the
backtrack phrase case-insensitively, yet the classification is `"forward"`,
not `"backtrack"`: the phrase match in the code is case-sensitive. -/
theorem get_direction_info_case_cex :
    pyContains (pyLower mixedCaseAct.raw_prediction) (pyLower BACKTRACK_KWD) = true
    ∧ get_direction_info mixedCaseAct = "forward"
    ∧ get_direction_info mixedCaseAct ≠ "backtrack" := by
  decide

/-- The spec's seven-item example trajectory: state, forward action, state,
backtrack action, state, forward action, state. -/
def trajC5 : List TrajItem :=
  [TrajItem.state 0,
   TrajItem.action (Action.mk (some "forward") "click [42]"),
   TrajItem.state 1,
   TrajItem.action (Action.mk (some "backtrack") "We should take a step back"),
   TrajItem.state 2,
   TrajItem.action (Action.mk (some "forward") "type [7] hello"),
   TrajItem.state 3]

/-- C5 (amended): flattening the seven-item example removes exactly the
middle (backtrack) action; since states are never removed, the result has
length 6, not 5. -/
theorem try_flattening_trajC5 :
    (try_flattening trajC5).1 =
      [TrajItem.state 0,
       TrajItem.action (Action.mk (some "forward") "click [42]"),
       TrajItem.state 1,
       TrajItem.state 2,
       TrajItem.action (Action.mk (some "forward") "type [7] hello"),
       TrajItem.state 3]
    ∧ (try_flattening trajC5).1.length = 6 := by
  decide

/-- C5 counterexample: the flattened example trajectory has length 6, so the
spec's claimed length 5 is wrong (only the action is removed, no state). -/
theorem try_flattening_trajC5_length_cex :
    (try_flattening trajC5).1.length = 6 ∧ (try_flattening trajC5).1.length ≠ 5 := by
  decide

/-! ### Chat messages and the rejection filter (`simplified_process_react.py`) -/

/-- One chat turn: a role (`"system"`, `"user"`, `"assistant"`) and a string
content. -/
structure Message where
  role : String
  content : String
deriving DecidableEq, Repr

/-- Placeholder message (the source never reads `messages[-1]` of a list
shorter than 3, so the default is never observed). -/
def mdefault : Message := Message.mk "" ""

/-- `error_keywords` of `_check_error_messages`. -/
def error_keywords : List String :=
  ["no matching element found",
   "element not found",
   "could not find element",
   "element not visible",
   "no such element"]

/-- `_check_error_messages` of `simplified_process_react.py`: does the
lowercased content contain one of the error keywords? -/
def _check_error_messages (content : String) : Bool :=
  error_keywords.any (fun keyword => pyContains (pyLower content) keyword)

/-- The role-alternation loop of `_filter_messages`: some two adjacent
messages of the list share a role. The source runs this over
`messages[1:]` (the pair at positions 0,1 is never compared). -/
def anyAdjacentSameRole : List Message → Bool
  | m1 :: m2 :: rest => (m1.role == m2.role) || anyAdjacentSameRole (m2 :: rest)
  | _ => false

/-- `_filter_messages` of `simplified_process_react.py`; `true` means the
message list is rejected. `strict_mode` is accepted but, as in the source,
never read: the backtracking-phrase check always runs. -/
def _filter_messages (messages : List Message) (strict_mode : Bool := true) : Bool :=
  if messages.length < 3 then true
  else if anyAdjacentSameRole (messages.drop 1) then true
  else
    let last_message := messages.getLastD mdefault
    if last_message.role != "assistant" then true
    else
      let content := last_message.content
      if content == "" || content.toList.all isPySpace then true
      else if _check_error_messages content then true
      else if pyContains (pyLower content) "go_back"
          || pyContains (pyLower content) "take a step back" then true
      else false

/-- The last message of a turn list (`messages[-1]`). -/
def lastMsg (messages : List Message) : Message :=
  messages.getLastD mdefault

/-- The rejection condition exactly as the claim words it (for comparison
with `_filter_messages`): every adjacent pair is role-checked, including
positions 0 and 1, and the backtracking-phrase check runs only in strict
mode. -/
def filter_claimed (messages : List Message) (strict_mode : Bool) : Bool :=
  decide (messages.length < 3)
  || anyAdjacentSameRole messages
  || ((lastMsg messages).role != "assistant")
  || ((lastMsg messages).content == "")
  || (lastMsg messages).content.toList.all isPySpace
  || _check_error_messages (lastMsg messages).content
  || (strict_mode
      && (pyContains (pyLower (lastMsg messages).content) "go_back"
          || pyContains (pyLower (lastMsg messages).content) "take a step back"))

/-- A three-turn list whose final assistant content contains the
backtracking phrase `go_back`. -/
def exGoBack : List Message :=
  [Message.mk "system" "sys", Message.mk "user" "obs", Message.mk "assistant" "go_back"]

/-- A three-turn list whose first two turns share the role `system` but
which passes every check `_filter_messages` actually performs. -/
def exDupRole : List Message :=
  [Message.mk "system" "sys", Message.mk "system" "sys2", Message.mk "assistant" "click [3]"]

/-- C2 counterexample: with strict mode off, the claim accepts `exGoBack`
but the code rejects it (the phrase check ignores `strict_mode`); and the
claim rejects `exDupRole` (turns 0 and 1 share a role) but the code accepts
it (the loop starts comparing at position 1). -/
theorem filter_messages_claim_cex :
    _filter_messages exGoBack false = true
    ∧ filter_claimed exGoBack false = false
    ∧ _filter_messages exDupRole true = false
    ∧ filter_claimed exDupRole true = true := by
  decide

/-- The rejection condition `_filter_messages` actually implements, stated
declaratively: fewer than 3 turns, or two adjacent turns at positions
`i, i+1` with `i ≥ 1` sharing a role, or a final turn that is not an
assistant turn, or final content that is all whitespace (or empty), or
contains an error keyword, or contains a backtracking phrase — the last
check regardless of strict mode. -/
def reject_spec (m : List Message) : Prop :=
  m.length < 3
  ∨ (∃ i, 1 ≤ i ∧ i + 1 < m.length
      ∧ (m.getD i mdefault).role = (m.getD (i + 1) mdefault).role)
  ∨ (lastMsg m).role ≠ "assistant"
  ∨ (∀ c ∈ (lastMsg m).content.toList, isPySpace c = true)
  ∨ _check_error_messages (lastMsg m).content = true
  ∨ pyContains (pyLower (lastMsg m).content) "go_back" = true
  ∨ pyContains (pyLower (lastMsg m).content) "take a step back" = true

theorem anyAdjacentSameRole_iff (l : List Message) :
    anyAdjacentSameRole l = true
      ↔ ∃ j, j + 1 < l.length
          ∧ (l.getD j mdefault).role = (l.getD (j + 1) mdefault).role := by
  induction l with
  | nil => simp [anyAdjacentSameRole]
  | cons m1 rest ih =>
    cases rest with
    | nil => simp [anyAdjacentSameRole]
    | cons m2 rest2 =>
      rw [anyAdjacentSameRole]
      simp only [Bool.or_eq_true, beq_iff_eq, ih]
      constructor
      · rintro (h | ⟨j, hj, hr⟩)
        · exact ⟨0, by simp, by simpa using h⟩
        · refine ⟨j + 1, by simpa using Nat.succ_lt_succ hj, ?_⟩
          simpa [List.getD_cons_succ] using hr
      · rintro ⟨j, hj, hr⟩
        cases j with
        | zero => exact Or.inl (by simpa using hr)
        | succ j' =>
          refine Or.inr ⟨j', ?_, ?_⟩
          · simpa using Nat.lt_of_succ_lt_succ hj
          · simpa [List.getD_cons_succ] using hr

theorem getD_drop_one (m : List Message) (j : Nat) :
    (m.drop 1).getD j mdefault = m.getD (j + 1) mdefault := by
  cases m <;> simp [List.getD_cons_succ]

/-- C2 (amended): `_filter_messages` rejects exactly per `reject_spec`: the
role-alternation check skips the first pair and the backtracking-phrase
check applies on every call, strict mode or not. -/
theorem filter_messages_iff (m : List Message) (strict_mode : Bool) :
    _filter_messages m strict_mode = true ↔ reject_spec m := by
  unfold _filter_messages reject_spec
  dsimp only
  split_ifs with h1 h2 h3 h4 h5 h6
  · simp only [true_iff]
    exact Or.inl h1
  · simp only [true_iff]
    refine Or.inr (Or.inl ?_)
    obtain ⟨j, hj, hr⟩ := (anyAdjacentSameRole_iff _).1 h2
    refine ⟨j + 1, Nat.le_add_left 1 j, ?_, ?_⟩
    · have := hj
      simp only [List.length_drop] at this
      omega
    · simpa [getD_drop_one] using hr
  · simp only [true_iff]
    exact Or.inr (Or.inr (Or.inl (by simpa [lastMsg, bne_iff_ne] using h3)))
  · simp only [true_iff]
    refine Or.inr (Or.inr (Or.inr (Or.inl ?_)))
    simp only [Bool.or_eq_true] at h4
    rcases h4 with he | ha
    · intro c hc
      have : (m.getLastD mdefault).content = "" := by simpa using he
      rw [lastMsg, this] at hc
      simp at hc
    · intro c hc
      exact List.all_eq_true.1 ha c hc
  · simp only [true_iff]
    exact Or.inr (Or.inr (Or.inr (Or.inr (Or.inl h5))))
  · simp only [true_iff]
    simp only [Bool.or_eq_true] at h6
    rcases h6 with hg | ht
    · exact Or.inr (Or.inr (Or.inr (Or.inr (Or.inr (Or.inl hg)))))
    · exact Or.inr (Or.inr (Or.inr (Or.inr (Or.inr (Or.inr ht)))))
  · simp only [false_iff]
    rintro (h | ⟨i, hi1, hi2, hr⟩ | h | h | h | h | h)
    · exact h1 h
    · apply h2
      refine (anyAdjacentSameRole_iff _).2 ⟨i - 1, ?_, ?_⟩
      · simp only [List.length_drop]
        omega
      · have hi : i - 1 + 1 = i := by omega
        rw [getD_drop_one, getD_drop_one, hi]
        exact hr
    · exact h (by simpa [lastMsg, bne_iff_ne] using h3)
    · apply h4
      simp only [Bool.or_eq_true]
      exact Or.inr (List.all_eq_true.2 fun c hc => h c hc)
    · exact h5 h
    · apply h6
      simp only [Bool.or_eq_true]
      exact Or.inl h
    · apply h6
      simp only [Bool.or_eq_true]
      exact Or.inr h

/-- C9: `_filter_messages` does not depend on `strict_mode`, and any final
content containing `go_back` (lowercased) is rejected on every call. -/
theorem filter_messages_strict_mode_independent (m : List Message) (b1 b2 : Bool) :
    _filter_messages m b1 = _filter_messages m b2
    ∧ (pyContains (pyLower (lastMsg m).content) "go_back" = true →
        _filter_messages m b1 = true) := by
  refine ⟨rfl, fun h => ?_⟩
  unfold _filter_messages
  dsimp only
  split_ifs with h1 h2 h3 h4 h5 h6
  any_goals rfl
  exact absurd (by simp only [Bool.or_eq_true]; exact Or.inl h) h6

/-! ### Token counting and context-size trimming (`simplified_process_react.py`)

`count_tokens` consults a tokenizer when one is available and otherwise
approximates with one token per four characters; the tokenizer is modelled
as an optional encoding-length function. The remaining budget inside
`check_context_size` is Python `int` arithmetic that can go negative, hence
`Int`. -/

/-- `count_tokens` of `simplified_process_react.py`. -/
def count_tokens (tokenizer : Option (String → Nat)) (text : String) : Nat :=
  match tokenizer with
  | some encode => encode text
  | none => text.length / 4

/-- Total token count of a message list (the summation loop at the top of
`check_context_size`; every content in this pipeline is a string). -/
def totalTokens (messages : List Message) (tokenizer : Option (String → Nat)) : Nat :=
  (messages.map (fun m => count_tokens tokenizer m.content)).sum

/-- Python's `kept_messages.insert(1, msg)`. -/
def insertAt1 (msg : Message) : List Message → List Message
  | [] => [msg]
  | h :: t => h :: msg :: t

/-- The re-insertion loop of `check_context_size`: walk the middle messages
in order; whenever one fits the remaining budget, insert it at position 1
and charge it; stop at the first that does not fit. -/
def trim_loop : List (Message × Nat) → List Message → Int → List Message × Int
  | [], kept, budget => (kept, budget)
  | (msg, tk) :: rest, kept, budget =>
    if (tk : Int) ≤ budget then trim_loop rest (insertAt1 msg kept) (budget - tk)
    else (kept, budget)

/-- `check_context_size` of `simplified_process_react.py`: returns the
(possibly trimmed) message list and the token count the source reports
(`total_tokens`, or `max_tokens - remaining_budget` after trimming). -/
def check_context_size (messages : List Message) (tokenizer : Option (String → Nat))
    (max_tokens : Nat := 16000) : List Message × Int :=
  match messages with
  | [] => ([], 0)
  | m0 :: rest =>
    let msgs := m0 :: rest
    let message_tokens := msgs.map (fun m => count_tokens tokenizer m.content)
    let total_tokens := message_tokens.sum
    if total_tokens ≤ max_tokens then (msgs, (total_tokens : Int))
    else if msgs.length ≤ 7 then (msgs, (total_tokens : Int))
    else
      let kept := m0 :: msgs.drop (msgs.length - 6)
      let kept_tokens : Int :=
        (count_tokens tokenizer m0.content : Int)
          + ((message_tokens.drop (message_tokens.length - 6)).sum : Int)
      let middle := (msgs.drop 1).take (msgs.length - 7)
      let middle_tokens := (message_tokens.drop 1).take (message_tokens.length - 7)
      let res := trim_loop (middle.zip middle_tokens) kept ((max_tokens : Int) - kept_tokens)
      (res.1, (max_tokens : Int) - res.2)

/-- C6: a turn list already within the token budget is returned unchanged
(with its total token count), so applying the trimmer twice equals applying
it once. -/
theorem check_context_size_within (m : List Message) (tok : Option (String → Nat))
    (mx : Nat) (h : totalTokens m tok ≤ mx) :
    check_context_size m tok mx = (m, (totalTokens m tok : Int))
    ∧ check_context_size (check_context_size m tok mx).1 tok mx
        = check_context_size m tok mx := by
  have h1 : check_context_size m tok mx = (m, (totalTokens m tok : Int)) := by
    cases m with
    | nil => simp [check_context_size, totalTokens]
    | cons m0 rest =>
      unfold check_context_size
      dsimp only
      rw [if_pos (show ((m0 :: rest).map fun m => count_tokens tok m.content).sum ≤ mx from h)]
      rfl
  refine ⟨h1, ?_⟩
  rw [h1]
  simpa using h1

/-- A concrete three-turn list totalling 2 tokens (approximate counting). -/
def msgsWithin : List Message :=
  [Message.mk "system" "abcd", Message.mk "user" "efgh", Message.mk "assistant" "ok"]

/-- Witness for C6: the concrete within-budget list `msgsWithin` is returned
unchanged and trimming is idempotent on it. -/
theorem check_context_size_within_witness :
    check_context_size msgsWithin none 16000 = (msgsWithin, 2)
    ∧ check_context_size (check_context_size msgsWithin none 16000).1 none 16000
        = check_context_size msgsWithin none 16000 := by
  have h := check_context_size_within msgsWithin none 16000 (by decide)
  exact ⟨h.1.trans (by decide), h.2⟩

/-- C10: a turn list of at most 7 messages is always returned unchanged,
with its computed total token count — whether or not that total exceeds
`max_tokens`; for such lists the output is not trimmed to the budget. -/
theorem check_context_size_small (m : List Message) (tok : Option (String → Nat))
    (mx : Nat) (h : m.length ≤ 7) :
    check_context_size m tok mx = (m, (totalTokens m tok : Int)) := by
  cases m with
  | nil => simp [check_context_size, totalTokens]
  | cons m0 rest =>
    unfold check_context_size
    dsimp only
    split_ifs with h1 <;> rfl

/-- A concrete two-turn list totalling 4 tokens. -/
def msgsSmallOver : List Message :=
  [Message.mk "system" "aaaaaaaa", Message.mk "user" "bbbbbbbb"]

/-- Witness for C10: with a budget of 2 tokens, the 4-token two-message list
is returned unchanged, so the output exceeds the budget. -/
theorem check_context_size_small_witness :
    check_context_size msgsSmallOver none 2 = (msgsSmallOver, 4) ∧ (2 : Int) < 4 := by
  have h := check_context_size_small msgsSmallOver none 2 (by decide)
  exact ⟨h.trans (by decide), by decide⟩

/-- The greedy selection the re-insertion loop realizes: take middle
messages in order while each fits the remaining budget, stopping at the
first that does not. -/
def greedyTake : Int → List (Message × Nat) → List Message
  | _, [] => []
  | budget, (msg, tk) :: rest =>
    if (tk : Int) ≤ budget then msg :: greedyTake (budget - tk) rest else []

theorem zip_map_self (f : Message → Nat) (l : List Message) :
    l.zip (l.map f) = l.map (fun x => (x, f x)) := by
  induction l with
  | nil => rfl
  | cons x xs ih => simp [ih]

theorem trim_loop_fst (pairs : List (Message × Nat)) (hd : Message)
    (acc : List Message) (b : Int) :
    (trim_loop pairs (hd :: acc) b).1 = hd :: (greedyTake b pairs).reverse ++ acc := by
  induction pairs generalizing acc b with
  | nil => simp [trim_loop, greedyTake]
  | cons p rest ih =>
    obtain ⟨msg, tk⟩ := p
    by_cases htk : (tk : Int) ≤ b
    · rw [trim_loop, greedyTake]
      rw [if_pos htk, if_pos htk]
      show (trim_loop rest (hd :: msg :: acc) (b - tk)).1 = _
      rw [ih]
      simp
    · rw [trim_loop, greedyTake]
      rw [if_neg htk, if_neg htk]
      simp

/-- C3 (amended): when the total exceeds the budget and the list is longer
than 7 turns, the trimmer keeps the first (system) turn and the final 6
turns, and re-inserts middle turns greedily in original scan order while
each fits the remaining budget — but every insertion happens directly after
the system turn, so the retained middle turns end up in reverse of their
original order. -/
theorem check_context_size_trim (m0 : Message) (rest : List Message)
    (tok : Option (String → Nat)) (mx : Nat)
    (hover : mx < totalTokens (m0 :: rest) tok)
    (hlen : 7 < (m0 :: rest).length) :
    (check_context_size (m0 :: rest) tok mx).1 =
      m0 :: (greedyTake
          ((mx : Int) - ((count_tokens tok m0.content : Int)
            + (totalTokens ((m0 :: rest).drop ((m0 :: rest).length - 6)) tok : Int)))
          (((m0 :: rest).drop 1).take ((m0 :: rest).length - 7)
            |>.map (fun msg => (msg, count_tokens tok msg.content)))).reverse
        ++ (m0 :: rest).drop ((m0 :: rest).length - 6) := by
  unfold check_context_size
  dsimp only
  rw [if_neg (by simp only [totalTokens] at hover; omega),
    if_neg (by omega)]
  rw [show (((m0 :: rest).map fun m => count_tokens tok m.content).drop 1).take
        (((m0 :: rest).map fun m => count_tokens tok m.content).length - 7)
      = (((m0 :: rest).drop 1).take ((m0 :: rest).length - 7)).map
          (fun m => count_tokens tok m.content) by
    simp [List.map_drop, List.map_take]]
  rw [zip_map_self]
  rw [trim_loop_fst]
  simp [totalTokens, List.map_drop]

/-- The system turn of the trimming example (1 token, approximate count). -/
def sysM : Message := Message.mk "system" "ssss"

/-- First middle turn of the trimming example (1 token). -/
def midA : Message := Message.mk "user" "aaaa"

/-- Second middle turn of the trimming example (1 token). -/
def midB : Message := Message.mk "assistant" "bbbb"

/-- Third middle turn of the trimming example (5 tokens; too big to fit). -/
def midC : Message := Message.mk "user" "cccccccccccccccccccc"

/-- The final six turns of the trimming example (2 tokens each). -/
def tailMsgs : List Message :=
  [Message.mk "assistant" "d1d1d1d1", Message.mk "user" "d2d2d2d2",
   Message.mk "assistant" "d3d3d3d3", Message.mk "user" "d4d4d4d4",
   Message.mk "assistant" "d5d5d5d5", Message.mk "user" "d6d6d6d6"]

/-- A ten-turn list totalling 20 tokens: system, three middle turns, six
tail turns. -/
def trimEx : List Message := sysM :: midA :: midB :: midC :: tailMsgs

/-- C3 counterexample: trimming `trimEx` to a 16-token budget retains the
middle turns `midA` and `midB`, but in the output `midB` comes before
`midA`, the reverse of their input order. -/
theorem check_context_size_order_cex :
    (check_context_size trimEx none 16).1 = sysM :: midB :: midA :: tailMsgs
    ∧ List.indexOf midA trimEx < List.indexOf midB trimEx
    ∧ List.indexOf midB (check_context_size trimEx none 16).1
        < List.indexOf midA (check_context_size trimEx none 16).1 := by
  decide

/-- Witness for C3 (amended) on the concrete list `trimEx`: the greedy
selection takes `midA` then `midB` (and stops at `midC`), and the output
lists them in reverse order after the system turn. -/
theorem check_context_size_trim_witness :
    (check_context_size trimEx none 16).1 = sysM :: midB :: midA :: tailMsgs := by
  have h := check_context_size_trim sysM (midA :: midB :: midC :: tailMsgs) none 16
    (by decide) (by decide)
  exact h.trans (by decide)

/-! ### Field sanitization (`_filter_train_data` of `simplified_process_react.py`)

The content is processed as a character list so the regex passes of the
source can be modelled as explicit scanners:

* truncation to 12,000 characters plus a `"... [truncated]"` marker;
* `re.sub(r'\n{3,}', '\n\n', ...)`: each maximal run of three or more
  newlines becomes two;
* the four HTML-entity `str.replace` passes;
* `re.sub(r' +', ' ', ...)` and `re.sub(r'\t+', ' ', ...)`: runs of spaces
  (resp. tabs) become one space;
* `re.sub(r'https?://[^\s<>"]+|www\.[^\s<>"]+', '[URL]', ...)`: URL
  replacement. -/

/-- The truncation marker appended by `_filter_train_data`. -/
def TRUNC_MARKER : List Char := "... [truncated]".toList

/-- One `str.replace(pat, rep)` pass (non-overlapping, left to right). -/
def replaceAll (pat rep : List Char) (s : List Char) : List Char :=
  if hpat : pat = [] then s
  else
    match s with
    | [] => []
    | c :: rest =>
      if (c :: rest).take pat.length == pat then
        rep ++ replaceAll pat rep ((c :: rest).drop pat.length)
      else
        c :: replaceAll pat rep rest
termination_by s.length
decreasing_by
  · have hlen : 0 < pat.length := List.length_pos.mpr hpat
    simp only [List.length_drop, List.length_cons]
    omega
  · simp

/-- `re.sub(r'\n{3,}', '\n\n', ...)`: a maximal run of at least three
newlines is replaced by two. -/
def collapseNewlineRuns : List Char → List Char
  | [] => []
  | c :: rest =>
    if c = '\n' ∧ rest.take 2 = ['\n', '\n'] then
      '\n' :: '\n' :: collapseNewlineRuns ((rest.drop 2).dropWhile (fun d => d == '\n'))
    else
      c :: collapseNewlineRuns rest
termination_by l => l.length
decreasing_by
  · have h1 := (List.dropWhile_sublist (p := fun d => d == '\n')
      (l := rest.drop 2)).length_le
    simp only [List.length_drop, List.length_cons] at h1 ⊢
    omega
  · simp

/-- `re.sub(r'X+', rep, ...)` for a single character `X`: a maximal run of
the trigger character is replaced by `rep`. -/
def collapseRuns (trigger : Char) (rep : List Char) : List Char → List Char
  | [] => []
  | c :: rest =>
    if c = trigger then
      rep ++ collapseRuns trigger rep (rest.dropWhile (fun d => d == trigger))
    else
      c :: collapseRuns trigger rep rest
termination_by l => l.length
decreasing_by
  · have h1 := (List.dropWhile_sublist (p := fun d => d == trigger)
      (l := rest)).length_le
    simp only [List.length_cons]
    omega
  · simp

/-- A character the regex class `[^\s<>"]` accepts. -/
def isUrlChar (c : Char) : Bool :=
  !(isPySpace c || c == '<' || c == '>' || c == '"')

/-- Try to match one alternative of the URL pattern at the head of `s`: the
literal protocol then one or more `isUrlChar` characters (greedy); returns
the remainder after the match. -/
def matchProto (proto s : List Char) : Option (List Char) :=
  if s.take proto.length == proto then
    if 0 < ((s.drop proto.length).takeWhile isUrlChar).length then
      some ((s.drop proto.length).drop ((s.drop proto.length).takeWhile isUrlChar).length)
    else none
  else none

/-- Try the three protocol alternatives of the URL regex at the head of `s`
(`https?://` with the greedy optional `s` first, then `www.`). -/
def matchUrl (s : List Char) : Option (List Char) :=
  match matchProto "https://".toList s with
  | some r => some r
  | none =>
    match matchProto "http://".toList s with
    | some r => some r
    | none => matchProto "www.".toList s

theorem matchProto_length {proto s r : List Char} (hp : proto ≠ [])
    (h : matchProto proto s = some r) : r.length < s.length := by
  unfold matchProto at h
  split_ifs at h with h1 h2
  · have hr : (s.drop proto.length).drop
        ((s.drop proto.length).takeWhile isUrlChar).length = r :=
      Option.some.inj h
    have hple : proto.length ≤ s.length := by
      have := congrArg List.length (beq_iff_eq.mp h1)
      simp only [List.length_take] at this
      omega
    have hppos : 0 < proto.length := List.length_pos.mpr hp
    have := congrArg List.length hr
    simp only [List.length_drop] at this h2 ⊢
    omega

theorem matchUrl_length {s r : List Char} (h : matchUrl s = some r) :
    r.length < s.length := by
  unfold matchUrl at h
  cases h1 : matchProto "https://".toList s with
  | some r1 =>
    rw [h1] at h
    cases h
    exact matchProto_length (by decide) h1
  | none =>
    rw [h1] at h
    cases h2 : matchProto "http://".toList s with
    | some r2 =>
      rw [h2] at h
      cases h
      exact matchProto_length (by decide) h2
    | none =>
      rw [h2] at h
      exact matchProto_length (by decide) h

/-- The URL-replacement pass: scan left to right, replacing each match of
the URL pattern by `[URL]`. -/
def replaceLinks (s : List Char) : List Char :=
  match s with
  | [] => []
  | c :: rest =>
    let m := matchUrl (c :: rest)
    if hm : m.isSome then
      "[URL]".toList ++ replaceLinks (m.get hm)
    else
      c :: replaceLinks rest
termination_by s.length
decreasing_by
  · exact matchUrl_length (Option.some_get hm).symm
  · simp

/-- `_filter_train_data` of `simplified_process_react.py`: truncate overlong
content, collapse excessive newlines, decode the four HTML entities,
collapse space and tab runs, and replace links by placeholders. -/
def _filter_train_data (content : List Char) : List Char :=
  let content1 :=
    if 12000 < content.length then content.take 12000 ++ TRUNC_MARKER else content
  let content2 := collapseNewlineRuns content1
  let content3 := replaceAll "&lt;".toList "<".toList content2
  let content4 := replaceAll "&gt;".toList ">".toList content3
  let content5 := replaceAll "&amp;".toList "&".toList content4
  let content6 := replaceAll "&quot;".toList "\"".toList content5
  let content7 := collapseRuns ' ' [' '] content6
  let content8 := collapseRuns '\t' [' '] content7
  replaceLinks content8

theorem collapseNewlineRuns_cons (c : Char) (l : List Char) (h : c ≠ '\n') :
    collapseNewlineRuns (c :: l) = c :: collapseNewlineRuns l := by
  rw [collapseNewlineRuns, if_neg (by simp [h])]

theorem collapseRuns_cons (trigger : Char) (rep : List Char) (c : Char) (l : List Char)
    (h : c ≠ trigger) :
    collapseRuns trigger rep (c :: l) = c :: collapseRuns trigger rep l := by
  rw [collapseRuns, if_neg h]

/-- No two adjacent occurrences of the trigger character. -/
def noDoubleTrigger (trigger : Char) : List Char → Bool
  | a :: b :: rest => !(a == trigger && b == trigger) && noDoubleTrigger trigger (b :: rest)
  | _ => true

theorem collapseRuns_self (trigger : Char) (t : List Char)
    (h : noDoubleTrigger trigger t = true) :
    collapseRuns trigger [trigger] t = t := by
  induction t with
  | nil => rw [collapseRuns]
  | cons c rest ih =>
    have htail : noDoubleTrigger trigger rest = true := by
      cases rest with
      | nil => rfl
      | cons d rest2 =>
        have hh := h
        rw [noDoubleTrigger] at hh
        simp only [Bool.and_eq_true] at hh
        exact hh.2
    by_cases hc : c = trigger
    · rw [collapseRuns, if_pos hc]
      have hdw : rest.dropWhile (fun d => d == trigger) = rest := by
        cases rest with
        | nil => rfl
        | cons d rest2 =>
          have hh := h
          rw [noDoubleTrigger] at hh
          simp only [Bool.and_eq_true] at hh
          have h1 := hh.1
          have hd : d ≠ trigger := by
            intro hdx
            rw [hc, hdx] at h1
            simp at h1
          rw [List.dropWhile_cons_of_neg (by simp [hd])]
      rw [hdw, ih htail]
      simp [hc]
    · rw [collapseRuns, if_neg hc, ih htail]

theorem replaceAll_nil (pat rep : List Char) : replaceAll pat rep [] = [] := by
  rw [replaceAll]
  split_ifs <;> rfl

theorem replaceAll_cons_ne (pat rep : List Char) (c : Char) (l : List Char)
    (hpat : pat ≠ []) (hhead : pat.head? ≠ some c) :
    replaceAll pat rep (c :: l) = c :: replaceAll pat rep l := by
  obtain ⟨p, ps, rfl⟩ : ∃ p ps, pat = p :: ps := by
    cases pat with
    | nil => exact absurd rfl hpat
    | cons p ps => exact ⟨p, ps, rfl⟩
  have hcp : c ≠ p := by
    intro hc
    exact hhead (by simp [hc])
  rw [replaceAll, dif_neg hpat]
  rw [if_neg (by simp [List.length_cons, List.take_succ_cons, hcp])]

theorem matchProto_cons_ne (proto : List Char) (c : Char) (l : List Char)
    (hpat : proto ≠ []) (hhead : proto.head? ≠ some c) :
    matchProto proto (c :: l) = none := by
  obtain ⟨p, ps, rfl⟩ : ∃ p ps, proto = p :: ps := by
    cases proto with
    | nil => exact absurd rfl hpat
    | cons p ps => exact ⟨p, ps, rfl⟩
  have hcp : c ≠ p := by
    intro hc
    exact hhead (by simp [hc])
  unfold matchProto
  rw [if_neg (by simp [List.length_cons, List.take_succ_cons, hcp])]

theorem matchUrl_cons_ne (c : Char) (l : List Char) (h1 : c ≠ 'h') (h2 : c ≠ 'w') :
    matchUrl (c :: l) = none := by
  unfold matchUrl
  rw [matchProto_cons_ne _ _ _ (by decide) (by simpa using Ne.symm h1),
    matchProto_cons_ne _ _ _ (by decide) (by simpa using Ne.symm h1),
    matchProto_cons_ne _ _ _ (by decide) (by simpa using Ne.symm h2)]

theorem replaceLinks_nil : replaceLinks [] = [] := by
  rw [replaceLinks]

theorem replaceLinks_cons (c : Char) (l : List Char) (h1 : c ≠ 'h') (h2 : c ≠ 'w') :
    replaceLinks (c :: l) = c :: replaceLinks l := by
  rw [replaceLinks]
  simp [matchUrl_cons_ne c l h1 h2]

/-- A scanning pass that steps over every character satisfying `P` is the
identity on texts all of whose characters satisfy `P`. -/
theorem pass_map_id (f : List Char → List Char) (P : Char → Prop)
    (hstep : ∀ c l, P c → f (c :: l) = c :: f l) (hnil : f [] = [])
    (t : List Char) (h : ∀ c ∈ t, P c) : f t = t := by
  induction t with
  | nil => exact hnil
  | cons c rest ih =>
    rw [hstep c rest (h c (List.mem_cons_self c rest)),
      ih (fun d hd => h d (List.mem_cons_of_mem c hd))]

/-- A scanning pass that steps over `'a'` distributes over a leading block
of `'a'`s. -/
theorem pass_replicate (f : List Char → List Char)
    (hstep : ∀ l, f ('a' :: l) = 'a' :: f l) (n : Nat) (t : List Char) :
    f (List.replicate n 'a' ++ t) = List.replicate n 'a' ++ f t := by
  induction n with
  | zero => simp
  | succ k ih => simp only [List.replicate_succ, List.cons_append, hstep, ih]

theorem collapseNewlineRuns_marker :
    collapseNewlineRuns TRUNC_MARKER = TRUNC_MARKER :=
  pass_map_id _ (fun c => c ≠ '\n') collapseNewlineRuns_cons
    (by rw [collapseNewlineRuns]) TRUNC_MARKER (by decide)

theorem replaceAll_no_head (pat rep t : List Char) (hpat : pat ≠ [])
    (h : ∀ c ∈ t, pat.head? ≠ some c) : replaceAll pat rep t = t :=
  pass_map_id _ (fun c => pat.head? ≠ some c)
    (fun c l hc => replaceAll_cons_ne pat rep c l hpat hc)
    (replaceAll_nil pat rep) t h

theorem collapseSpaces_marker :
    collapseRuns ' ' [' '] TRUNC_MARKER = TRUNC_MARKER :=
  collapseRuns_self ' ' TRUNC_MARKER (by decide)

theorem ltPat_marker :
    replaceAll "&lt;".toList "<".toList TRUNC_MARKER = TRUNC_MARKER :=
  replaceAll_no_head "&lt;".toList "<".toList TRUNC_MARKER (by decide) (by decide)

theorem gtPat_marker :
    replaceAll "&gt;".toList ">".toList TRUNC_MARKER = TRUNC_MARKER :=
  replaceAll_no_head "&gt;".toList ">".toList TRUNC_MARKER (by decide) (by decide)

theorem ampPat_marker :
    replaceAll "&amp;".toList "&".toList TRUNC_MARKER = TRUNC_MARKER :=
  replaceAll_no_head "&amp;".toList "&".toList TRUNC_MARKER (by decide) (by decide)

theorem quotPat_marker :
    replaceAll "&quot;".toList "\"".toList TRUNC_MARKER = TRUNC_MARKER :=
  replaceAll_no_head "&quot;".toList "\"".toList TRUNC_MARKER (by decide) (by decide)

theorem collapseTabs_marker :
    collapseRuns '\t' [' '] TRUNC_MARKER = TRUNC_MARKER :=
  pass_map_id _ (fun c => c ≠ '\t')
    (fun c l hc => collapseRuns_cons '\t' [' '] c l hc)
    (by rw [collapseRuns]) TRUNC_MARKER (by decide)

theorem replaceLinks_marker : replaceLinks TRUNC_MARKER = TRUNC_MARKER :=
  pass_map_id _ (fun c => c ≠ 'h' ∧ c ≠ 'w')
    (fun c l hc => replaceLinks_cons c l hc.1 hc.2)
    replaceLinks_nil TRUNC_MARKER (by decide)

/-- Sanitizing an all-`'a'` text of length `n ≥ 12000` followed by a final
`'!'`: the truncation keeps only the first 12000 characters plus the marker,
and every later pass leaves that result unchanged. -/
theorem filter_train_data_bang (n : Nat) (hn : 12000 ≤ n) :
    _filter_train_data (List.replicate n 'a' ++ ['!'])
      = List.replicate 12000 'a' ++ TRUNC_MARKER := by
  have hlen : 12000 < (List.replicate n 'a' ++ ['!']).length := by
    simp only [List.length_append, List.length_replicate, List.length_cons,
      List.length_nil]
    omega
  have htake : (List.replicate n 'a' ++ ['!']).take 12000
      = List.replicate 12000 'a' := by
    rw [List.take_append_of_le_length (by simpa using hn), List.take_replicate]
    congr 1
    omega
  unfold _filter_train_data
  dsimp only
  rw [if_pos hlen, htake]
  rw [pass_replicate collapseNewlineRuns
    (fun l => collapseNewlineRuns_cons 'a' l (by decide)) 12000 TRUNC_MARKER,
    collapseNewlineRuns_marker]
  rw [pass_replicate (replaceAll "&lt;".toList "<".toList)
    (fun l => replaceAll_cons_ne "&lt;".toList "<".toList 'a' l (by decide) (by decide))
    12000 TRUNC_MARKER, ltPat_marker]
  rw [pass_replicate (replaceAll "&gt;".toList ">".toList)
    (fun l => replaceAll_cons_ne "&gt;".toList ">".toList 'a' l (by decide) (by decide))
    12000 TRUNC_MARKER, gtPat_marker]
  rw [pass_replicate (replaceAll "&amp;".toList "&".toList)
    (fun l => replaceAll_cons_ne "&amp;".toList "&".toList 'a' l (by decide) (by decide))
    12000 TRUNC_MARKER, ampPat_marker]
  rw [pass_replicate (replaceAll "&quot;".toList "\"".toList)
    (fun l => replaceAll_cons_ne "&quot;".toList "\"".toList 'a' l (by decide) (by decide))
    12000 TRUNC_MARKER, quotPat_marker]
  rw [pass_replicate (collapseRuns ' ' [' '])
    (fun l => collapseRuns_cons ' ' [' '] 'a' l (by decide)) 12000 TRUNC_MARKER,
    collapseSpaces_marker]
  rw [pass_replicate (collapseRuns '\t' [' '])
    (fun l => collapseRuns_cons '\t' [' '] 'a' l (by decide)) 12000 TRUNC_MARKER,
    collapseTabs_marker]
  rw [pass_replicate replaceLinks
    (fun l => replaceLinks_cons 'a' l (by decide) (by decide)) 12000 TRUNC_MARKER,
    replaceLinks_marker]

/-- C7 (amended): sanitization caps a field at 12,000 characters, keeping
the head plus a `"... [truncated]"` marker; for a long observation (all
`'a'`s with a final `'!'`), the output preserves the first 12,000 input
characters but nothing after the cap — in particular the final `'!'` of the
original is gone. -/
theorem filter_train_data_truncates (n : Nat) (hn : 12000 ≤ n) :
    _filter_train_data (List.replicate n 'a' ++ ['!'])
        = List.replicate 12000 'a' ++ TRUNC_MARKER
    ∧ (_filter_train_data (List.replicate n 'a' ++ ['!'])).take 12000
        = (List.replicate n 'a' ++ ['!']).take 12000
    ∧ '!' ∉ _filter_train_data (List.replicate n 'a' ++ ['!']) := by
  have hm := filter_train_data_bang n hn
  refine ⟨hm, ?_, ?_⟩
  · rw [hm, List.take_append_of_le_length (by simp only [List.length_replicate]; omega),
      List.take_append_of_le_length (by simp only [List.length_replicate]; omega),
      List.take_replicate, List.take_replicate]
    congr 1
    omega
  · rw [hm]
    intro hmem
    rcases List.mem_append.mp hmem with h1 | h2
    · exact absurd (List.eq_of_mem_replicate h1) (by decide)
    · exact absurd h2 (by decide)

/-- Witness for C7 (amended) at the spec's 15,000-character observation. -/
theorem filter_train_data_truncates_witness :
    _filter_train_data (List.replicate 14999 'a' ++ ['!'])
        = List.replicate 12000 'a' ++ TRUNC_MARKER
    ∧ (_filter_train_data (List.replicate 14999 'a' ++ ['!'])).take 12000
        = (List.replicate 14999 'a' ++ ['!']).take 12000
    ∧ '!' ∉ _filter_train_data (List.replicate 14999 'a' ++ ['!']) :=
  filter_train_data_truncates 14999 (by decide)

/-- C7 counterexample: a 15,000-character observation whose last character
`'!'` appears nowhere in the sanitized output: the character cap keeps only
the head, so no tail fragment of the original survives. -/
theorem filter_train_data_tail_cex :
    (List.replicate 14999 'a' ++ ['!']).length = 15000
    ∧ (List.replicate 14999 'a' ++ ['!']).getLast? = some '!'
    ∧ '!' ∉ _filter_train_data (List.replicate 14999 'a' ++ ['!']) := by
  refine ⟨?_, ?_, ?_⟩
  · simp only [List.length_append, List.length_replicate, List.length_cons,
      List.length_nil]
  · rw [List.getLast?_concat]
  · rw [filter_train_data_bang 14999 (by decide)]
    intro hmem
    rcases List.mem_append.mp hmem with h1 | h2
    · exact absurd (List.eq_of_mem_replicate h1) (by decide)
    · exact absurd h2 (by decide)

/-! ### Success-rate reduction (`analyze_o4_mini_trajectories.py`)

A performance JSON file is modelled by the only field the success decision
reads: the optional `scores` value. JSON numbers are modelled as rationals
(`scores: 1.0` is the rational 1). Each processed task contributes the
optional score returned by the trajectory loader and the optional
performance record. -/

/-- A `performance_<id>.json` record: its optional `scores` field. -/
structure PerfData where
  scores : Option Rat
deriving DecidableEq, Repr

/-- The per-task success decision of `analyze_trajectories` in
`analyze_o4_mini_trajectories.py`: a trajectory-level score wins when
present; otherwise a present `scores` field of the performance record;
success means the score is strictly positive. -/
def task_is_successful (score : Option Rat) (perf_data : Option PerfData) : Bool :=
  match score with
  | some s => decide (0 < s)
  | none =>
    match perf_data with
    | some pd =>
      match pd.scores with
      | some sc => decide (0 < sc)
      | none => false
    | none => false

/-- The counting loop of `analyze_trajectories`: `(successful_tasks,
failed_tasks)` over a batch of `(score, perf_data)` pairs. -/
def count_success_fail (tasks : List (Option Rat × Option PerfData)) : Nat × Nat :=
  tasks.foldl
    (fun acc t =>
      if task_is_successful t.1 t.2 then (acc.1 + 1, acc.2) else (acc.1, acc.2 + 1))
    (0, 0)

/-- The success-rate reduction: `successful / total * 100` when the batch is
nonempty (the source leaves the initial `0.0` otherwise). -/
def success_rate (tasks : List (Option Rat × Option PerfData)) : Rat :=
  if 0 < tasks.length then
    ((count_success_fail tasks).1 : Rat) / (tasks.length : Rat) * 100
  else 0

/-- The spec's two-record batch: one record with `scores: 1.0`, one with no
score field anywhere. -/
def perfBatch : List (Option Rat × Option PerfData) :=
  [(none, some (PerfData.mk (some 1))), (none, some (PerfData.mk none))]

/-- C8: on a batch of exactly two performance records — one with
`scores: 1.0`, one with no score field — the reducer counts one success and
one failure and reports a success rate of 50%. -/
theorem success_rate_two_records :
    task_is_successful none (some (PerfData.mk (some 1))) = true
    ∧ task_is_successful none (some (PerfData.mk none)) = false
    ∧ count_success_fail perfBatch = (1, 1)
    ∧ success_rate perfBatch = 50 := by
  refine ⟨rfl, rfl, rfl, ?_⟩
  norm_num [success_rate, count_success_fail, perfBatch, task_is_successful]

end MyExact
